import Mathlib

/-!
Verification development for the AnkiTTS text-processing pipeline.

The definitions below are a shallow embedding of the two core source files:
  * `word_analyzer/simple_word_analyzer.py` — text cleaning, tokenization,
    stop-word filtering, frequency aggregation, reporting;
  * `anki_helper/generate_anki_cards.py` — word-list loading, card
    synthesis, phrase expansion, deck serialization.

Strings are modelled with Lean `String` (a packed `List Char`), corpora and
word-list files as `List String` (one entry per line, without the trailing
newline that Python's file iteration retains and `strip()` removes).
Python's `\w`, `\s`, `str.lower()` and `str.strip()` are modelled on the
character repertoire the program manipulates (ASCII plus the German letters
the source singles out); the wall-clock timestamp read in each loop
iteration of the card generator is passed in explicitly as a function from
the word's index to the clock value.
-/

namespace AnkiTTS

/-- Python `\s` / `str.split()` / `str.strip()` whitespace, restricted to the
ASCII whitespace characters. -/
def isPySpace (c : Char) : Bool :=
  c = ' ' || c = '\t' || c = '\n' || c = '\r' || c = '\x0b' || c = '\x0c'

/-- The German letters the source lists explicitly in its character class
`[^\w\säöüßÄÖÜ]` (umlauts and sharp s). -/
def isGermanChar (c : Char) : Bool :=
  c = 'ä' || c = 'ö' || c = 'ü' || c = 'ß' || c = 'Ä' || c = 'Ö' || c = 'Ü'

/-- Python `\w` (word character): letters, digits and underscore, restricted
to the repertoire the program manipulates (ASCII alphanumerics, underscore,
and the German letters above). -/
def isPyWordChar (c : Char) : Bool :=
  c.isAlphanum || c = '_' || isGermanChar c

/-- Upper-to-lower case table modelling Python `str.lower()` on the
program's character repertoire: ASCII `A`–`Z` plus the German umlauts. -/
def lowerPairs : List (Char × Char) :=
  [('A', 'a'), ('B', 'b'), ('C', 'c'), ('D', 'd'), ('E', 'e'), ('F', 'f'),
   ('G', 'g'), ('H', 'h'), ('I', 'i'), ('J', 'j'), ('K', 'k'), ('L', 'l'),
   ('M', 'm'), ('N', 'n'), ('O', 'o'), ('P', 'p'), ('Q', 'q'), ('R', 'r'),
   ('S', 's'), ('T', 't'), ('U', 'u'), ('V', 'v'), ('W', 'w'), ('X', 'x'),
   ('Y', 'y'), ('Z', 'z'), ('Ä', 'ä'), ('Ö', 'ö'), ('Ü', 'ü')]

/-- Python `str.lower()` on a single character (via `lowerPairs`). -/
def pyLower (c : Char) : Char :=
  match lowerPairs.find? (fun p => p.1 = c) with
  | some p => p.2
  | none => c

/-- Python `str.lower()` on a string. -/
def pyLowerStr (s : String) : String := ⟨s.data.map pyLower⟩

/-- Python `str.strip()` on a character list: drop whitespace from both
ends. -/
def pyStripL (l : List Char) : List Char :=
  ((l.dropWhile isPySpace).reverse.dropWhile isPySpace).reverse

/-- Python `str.strip()` on a string. -/
def pyStrip (s : String) : String := ⟨pyStripL s.data⟩

/-- Python `str.startswith(pre)`. -/
def pyStartsWith (s pre : String) : Bool := pre.data.isPrefixOf s.data

/-!
## TextNormalizer: `clean_german_text`

The source applies four regex substitutions in order:
1. `re.sub(r"\[sound:[^\]]+\]", "", text)`
2. `re.sub(r"<[^>]+>", "", text)`
3. `re.sub(r"\s+", " ", text).strip()`
4. `re.sub(r"[^\w\säöüßÄÖÜ]", " ", text)`
Steps 1 and 2 are modelled by left-to-right scanners (fuelled for
structural recursion; the fuel, the input length, always suffices because
every step consumes at least one character).
-/

/-- One left-to-right pass of `re.sub(r"\[sound:[^\]]+\]", "", ·)`: at each
position, if the text starts with `[sound:` followed by at least one
non-`]` character and then `]`, the whole match is dropped and scanning
resumes after it; otherwise one character is kept. -/
def removeSoundRefsAux : Nat → List Char → List Char
  | 0, l => l
  | _, [] => []
  | fuel + 1, c :: t =>
    if ("[sound:".data).isPrefixOf (c :: t) then
      let rest := (c :: t).drop 7
      let body := rest.takeWhile (fun d => d ≠ ']')
      let after := rest.dropWhile (fun d => d ≠ ']')
      if 1 ≤ body.length ∧ 1 ≤ after.length then
        removeSoundRefsAux fuel (after.drop 1)
      else c :: removeSoundRefsAux fuel t
    else c :: removeSoundRefsAux fuel t

/-- `re.sub(r"\[sound:[^\]]+\]", "", ·)` on a character list. -/
def removeSoundRefs (l : List Char) : List Char := removeSoundRefsAux l.length l

/-- One left-to-right pass of `re.sub(r"<[^>]+>", "", ·)`: at `<`, if at
least one non-`>` character precedes a `>`, the whole tag is dropped;
otherwise one character is kept. -/
def removeHtmlTagsAux : Nat → List Char → List Char
  | 0, l => l
  | _, [] => []
  | fuel + 1, c :: t =>
    if c = '<' then
      let body := t.takeWhile (fun d => d ≠ '>')
      let after := t.dropWhile (fun d => d ≠ '>')
      if 1 ≤ body.length ∧ 1 ≤ after.length then
        removeHtmlTagsAux fuel (after.drop 1)
      else c :: removeHtmlTagsAux fuel t
    else c :: removeHtmlTagsAux fuel t

/-- `re.sub(r"<[^>]+>", "", ·)` on a character list. -/
def removeHtmlTags (l : List Char) : List Char := removeHtmlTagsAux l.length l

/-- Collapse consecutive spaces to one space (the run-collapsing half of
`re.sub(r"\s+", " ", ·)`, applied after each whitespace character has been
mapped to a plain space). -/
def squeezeSpaces : List Char → List Char
  | [] => []
  | [c] => [c]
  | c :: d :: t =>
    if c = ' ' ∧ d = ' ' then squeezeSpaces (d :: t)
    else c :: squeezeSpaces (d :: t)

/-- `re.sub(r"\s+", " ", ·)`: map each whitespace character to a space,
then collapse runs of spaces. -/
def collapseWs (l : List Char) : List Char :=
  squeezeSpaces (l.map (fun c => if isPySpace c then ' ' else c))

/-- `re.sub(r"[^\w\säöüßÄÖÜ]", " ", ·)`: every character that is not a word
character, whitespace, or one of the listed German letters is replaced by a
single space. -/
def replaceSpecials (l : List Char) : List Char :=
  l.map (fun c => if isPyWordChar c || isPySpace c || isGermanChar c then c else ' ')

/-- `clean_german_text`: the four substitutions in source order
(sound refs, HTML tags, whitespace normalization + strip, special-character
replacement). -/
def cleanGermanText (text : String) : String :=
  ⟨replaceSpecials (pyStripL (collapseWs (removeHtmlTags (removeSoundRefs text.data))))⟩

/-!
## Tokenizer and StopWordFilter (inside `extract_german_words`)
-/

/-- One step (from the right) of whitespace splitting: a whitespace
character closes the token being collected, other characters extend it. -/
def pySplitWsStep (c : Char) (acc : List Char × List (List Char)) :
    List Char × List (List Char) :=
  if isPySpace c then
    if acc.1 = [] then acc else ([], acc.1 :: acc.2)
  else (c :: acc.1, acc.2)

/-- Python `str.split()` (no separator): split on runs of whitespace,
discarding empty pieces. -/
def pySplitWs (l : List Char) : List (List Char) :=
  let p := l.foldr pySplitWsStep ([], [])
  if p.1 = [] then p.2 else p.1 :: p.2

/-- `cleaned_text.lower().split()`: the token sequence of one cleaned
field. -/
def tokenize (s : String) : List String :=
  (pySplitWs (pyLowerStr s).data).map (fun l => ⟨l⟩)

/-- The `stop_words` set literal of `extract_german_words`, in source order
(the source's literal duplicate entries included; membership is
unaffected). -/
def stopWords : List String :=
  ["der", "die", "das", "ein", "eine", "einen", "einem", "einer",
   "und", "oder", "aber", "mit", "von", "zu", "in", "auf",
   "für", "an", "ist", "sind", "war", "waren", "haben", "hat",
   "hatte", "hatten", "werden", "wird", "wurde", "wurden", "können", "kann",
   "konnte", "konnten", "müssen", "muss", "musste", "mussten", "wollen", "will",
   "wollte", "wollten", "sollen", "soll", "sollte", "sollten", "dürfen", "darf",
   "durfte", "durften", "mögen", "mag", "mochte", "mochten", "ich", "du",
   "er", "sie", "es", "wir", "ihr", "sie", "mir", "mich",
   "dir", "dich", "ihm", "ihn", "ihr", "uns", "euch", "ihnen",
   "mein", "meine", "meinen", "meinem", "meiner", "dein", "deine", "deinen",
   "deinem", "deiner", "sein", "seine", "seinen", "seinem", "seiner", "ihr",
   "ihre", "ihren", "ihrem", "ihrer", "unser", "unsere", "unseren", "unserem",
   "unserer", "euer", "eure", "euren", "eurem", "eurer", "ihr", "ihre",
   "ihren", "ihrem", "ihrer", "das", "die", "der", "den", "dem",
   "des", "ein", "eine", "einen", "einem", "einer", "eines", "kein",
   "keine", "keinen", "keinem", "keiner", "keines", "alle", "allem", "allen",
   "aller", "alles", "manche", "manchem", "manchen", "mancher", "manches", "viele",
   "vieler", "vielen", "vieles", "wenige", "weniger", "wenigen", "weniges", "andere",
   "anderem", "anderen", "anderer", "anderes", "jede", "jedem", "jeden", "jeder",
   "jedes", "jene", "jenem", "jenen", "jener", "jenes", "diese", "diesem",
   "diesen", "dieser", "dieses", "solche", "solchem", "solchen", "solcher", "solches",
   "welche", "welchem", "welchen", "welcher", "welches", "auch", "nur", "noch",
   "schon", "erst", "dann", "danach", "deshalb", "deswegen", "trotzdem", "jedoch",
   "obwohl", "falls", "während", "sobald", "überall", "nirgends", "irgendwann", "manchmal",
   "oft", "selten", "immer", "nie", "vielleicht", "wahrscheinlich", "möglich", "unmöglich",
   "eigentlich", "wirklich", "sogar", "nur", "auch", "noch", "schon", "erst",
   "dann", "danach", "deshalb", "deswegen", "trotzdem", "jedoch", "obwohl", "falls",
   "während", "sobald", "überall", "nirgends", "irgendwann", "manchmal", "oft", "selten",
   "immer", "nie", "vielleicht", "wahrscheinlich", "möglich", "unmöglich", "eigentlich", "wirklich",
   "sogar"]

/-- The word-appending loop of `extract_german_words`:
`if len(word) >= 2 and word not in stop_words: words.append(word)`. -/
def stopWordFilter (ws : List String) : List String :=
  ws.foldl
    (fun acc w =>
      if 2 ≤ w.length ∧ ¬ stopWords.contains w then acc ++ [w] else acc)
    []

/-- Prepend one character to the result of a character split: a separator
opens a fresh piece, any other character extends the current first
piece. -/
def splitOnCharCons (c sep : Char) : List (List Char) → List (List Char)
  | [] => [[]]
  | h :: r => if c = sep then [] :: h :: r else (c :: h) :: r

/-- Python `str.split(sep)` for a one-character separator: split at every
occurrence of `sep`, keeping empty pieces (never returns an empty list). -/
def splitOnChar (sep : Char) : List Char → List (List Char)
  | [] => [[]]
  | c :: t => splitOnCharCons c sep (splitOnChar sep t)

/-- Python `line.strip().split("\t")` as used on corpus lines. -/
def splitTab (s : String) : List String :=
  (splitOnChar '\t' s.data).map (fun l => ⟨l⟩)

/-- Tokens contributed by one corpus line in `extract_german_words`:
header/blank lines are skipped; other lines are stripped and split on tab;
lines with fewer than two fields are skipped; field 0 is cleaned,
lower-cased, whitespace-split and stop-word-filtered. -/
def lineTokens (line : String) : List String :=
  if pyStartsWith line "#" || pyStrip line = "" then []
  else
    match splitTab (pyStrip line) with
    | german :: _ :: _ => stopWordFilter (tokenize (cleanGermanText german))
    | _ => []

/-- `extract_german_words` over a corpus given as its list of lines. -/
def extractGermanWords (lines : List String) : List String :=
  (lines.map lineTokens).flatten

/-!
## FrequencyAggregator: `create_frequency_analysis` and `Counter`

`collections.Counter(words)` is a dict keyed in insertion order, so its
entries appear in the order of each word's first occurrence; it is modelled
as an association list grown by one fold over the word list.
`Counter.most_common()` is `sorted(items, key=count, reverse=True)` with
Python's stable sort; it is modelled as a stable insertion sort by
descending count.
-/

/-- Process one word into the counting table: bump an existing key's count,
or append a fresh key with count 1 (dict insertion order). -/
def addWord (acc : List (String × Nat)) (w : String) : List (String × Nat) :=
  if acc.any (fun p => p.1 = w) then
    acc.map (fun p => if p.1 = w then (p.1, p.2 + 1) else p)
  else acc ++ [(w, 1)]

/-- `create_frequency_analysis(words)`, i.e. `Counter(words)`: the
frequency table as an association list in first-occurrence order. -/
def createFrequencyAnalysis (words : List String) : List (String × Nat) :=
  words.foldl addWord []

/-- Insert an entry into a list sorted by descending count, before the
first entry of count ≤ its own (the insertion step of a stable descending
sort). -/
def insertDesc (p : String × Nat) : List (String × Nat) → List (String × Nat)
  | [] => [p]
  | q :: t => if p.2 < q.2 then q :: insertDesc p t else p :: q :: t

/-- `Counter.most_common()`: the table's entries stably sorted by
descending count (ties keep table order, i.e. first-occurrence order). -/
def mostCommon : List (String × Nat) → List (String × Nat)
  | [] => []
  | p :: t => insertDesc p (mostCommon t)

/-- `sum(word_freq.values())`. -/
def sumCounts (t : List (String × Nat)) : Nat := (t.map Prod.snd).sum

/-!
## ReportWriter: `print_summary` and `create_simple_visualization`

Both functions index/divide without guarding against an empty table;
fallible steps are modelled with `Except`.  `print_summary` computes
`total_words/unique_words` (a `ZeroDivisionError` when the table is empty)
before indexing `most_common(1)[0]` (an `IndexError` when it is empty).
-/

/-- The data `print_summary` prints when it succeeds. -/
structure SummaryData where
  totalWords : Nat
  uniqueWords : Nat
  avgFrequency : ℚ
  topWord : String × Nat
  hapaxCount : Nat
  hapaxPercent : ℚ
  top30 : List (String × Nat)
  deriving Repr, DecidableEq

/-- `print_summary(word_freq)`. -/
def printSummary (wordFreq : List (String × Nat)) : Except String SummaryData :=
  let total := sumCounts wordFreq
  let unique := wordFreq.length
  if unique = 0 then Except.error "ZeroDivisionError: division by zero"
  else
    let avg : ℚ := (total : ℚ) / (unique : ℚ)
    match (mostCommon wordFreq).head? with
    | none => Except.error "IndexError: list index out of range"
    | some top =>
      let hapax := (wordFreq.filter (fun p => p.2 = 1)).length
      Except.ok
        { totalWords := total, uniqueWords := unique, avgFrequency := avg,
          topWord := top, hapaxCount := hapax,
          hapaxPercent := (hapax : ℚ) / (unique : ℚ) * 100,
          top30 := (mostCommon wordFreq).take 30 }

/-- `create_simple_visualization(word_freq, top_n)`: rows of
(word, bar, count).  `top_words[0][1]` raises `IndexError` on an empty
slice; `int((count / max_freq) * bar_length)` (float truncation) is
modelled as natural floor division, exact for the quantities involved
here. -/
def createSimpleVisualization (wordFreq : List (String × Nat)) (topN : Nat) :
    Except String (List (String × String × Nat)) :=
  let topWords := (mostCommon wordFreq).take topN
  match topWords.head? with
  | none => Except.error "IndexError: list index out of range"
  | some first =>
    let maxFreq := first.2
    let barLength := 50
    Except.ok (topWords.map (fun p =>
      let barSize := p.2 * barLength / maxFreq
      (p.1, ⟨List.replicate barSize '█' ++ List.replicate (barLength - barSize) '░'⟩, p.2)))

/-!
## CardSynthesizer and DeckSerializer: `generate_anki_cards.py`

The wall-clock read `int(datetime.now().timestamp() * 1000)` performed in
each loop iteration is passed in explicitly as `ts : Nat → Nat`, mapping
the word's index to the clock value observed there; `str(timestamp)` is
the decimal rendering `natRepr`.
-/

/-- Decimal digits of a natural number (fuelled; fuel `n` suffices since
the value shrinks by a factor of ten each step). -/
def natReprAux : Nat → Nat → List Char
  | 0, n => [Nat.digitChar (n % 10)]
  | fuel + 1, n =>
    if n < 10 then [Nat.digitChar n]
    else natReprAux fuel (n / 10) ++ [Nat.digitChar (n % 10)]

/-- Python `str(n)` for a non-negative integer. -/
def natRepr (n : Nat) : String := ⟨natReprAux n n⟩

/-- `load_custom_word_list`: per line, strip; keep non-empty lines not
starting with `#`; append the lower-cased word.  (No de-duplication.) -/
def loadCustomWordList (lines : List String) : List String :=
  lines.foldl
    (fun words line =>
      let word := pyStrip line
      if word ≠ "" ∧ ¬ pyStartsWith word "#" then words ++ [pyLowerStr word]
      else words)
    []

/-- `generate_practice_phrases(word, complexity)`: the three template
categories; an unknown complexity falls back to `simple`. -/
def generatePracticePhrases (word complexity : String) : List String :=
  let simple := ["Das ist " ++ word ++ ".",
                 "Ich habe " ++ word ++ ".",
                 "Wo ist " ++ word ++ "?",
                 "Das " ++ word ++ " ist hier."]
  let questions := ["Was ist " ++ word ++ "?",
                    "Wie sagt man " ++ word ++ " auf Englisch?",
                    "Wo kann ich " ++ word ++ " finden?",
                    "Wann brauche ich " ++ word ++ "?"]
  let contexts := ["Ich suche " ++ word ++ ".",
                   "Kannst du mir " ++ word ++ " geben?",
                   "Das " ++ word ++ " gefällt mir.",
                   "Ich möchte " ++ word ++ " lernen."]
  if complexity = "simple" then simple
  else if complexity = "questions" then questions
  else if complexity = "contexts" then contexts
  else simple

/-- `create_anki_card` up to the final `f"{front}\t{back}"` join: the
(front, back) pair.  `ts` is the wall-clock value used when no audio file
name is supplied. -/
def createAnkiCardPair (word translation audioFile cardType : String) (ts : Nat) :
    String × String :=
  let audio := if audioFile = "" then word ++ "_" ++ natRepr ts ++ ".mp3" else audioFile
  if cardType = "word" then
    (word ++ " [sound:" ++ audio ++ "]",
     if translation ≠ "" then translation else "Translation for: " ++ word)
  else if cardType = "phrase" then
    ("<strong>" ++ word ++ "</strong> [sound:" ++ audio ++ "]",
     if translation ≠ "" then "<div>" ++ translation ++ "</div>"
     else "Practice phrase with: " ++ word)
  else if cardType = "question" then
    ("<strong>Was bedeutet \x27" ++ word ++ "\x27?</strong> [sound:" ++ audio ++ "]",
     if translation ≠ "" then translation else "Meaning of: " ++ word)
  else
    (word ++ " [sound:" ++ audio ++ "]",
     if translation ≠ "" then translation else "")

/-- `create_anki_card`: the tab-joined card line. -/
def createAnkiCard (word translation audioFile cardType : String) (ts : Nat) : String :=
  (createAnkiCardPair word translation audioFile cardType ts).1 ++ "\t" ++
    (createAnkiCardPair word translation audioFile cardType ts).2

/-- The (front, back) pairs one word contributes in the deck-generation
loops: its own card (audio `{word}_{timestamp}.mp3`), plus, when
`include_phrases`, the first two `simple` practice phrases as `phrase`
cards with audio `phrase_{word}_{timestamp+i+1}.mp3`. -/
def pairsForWord (w : String) (ts : Nat) (cardType : String) (includePhrases : Bool) :
    List (String × String) :=
  let audio := w ++ "_" ++ natRepr ts ++ ".mp3"
  let base := [createAnkiCardPair w "" audio cardType ts]
  if includePhrases then
    base ++ (((generatePracticePhrases w "simple").take 2).enum.map
      (fun ip =>
        createAnkiCardPair ip.2 "" ("phrase_" ++ w ++ "_" ++ natRepr (ts + ip.1 + 1) ++ ".mp3")
          "phrase" ts))
  else base

/-- The (front, back) pairs of the whole deck body, in loop order. -/
def deckPairsFromWords (words : List String) (ts : Nat → Nat) (cardType : String)
    (includePhrases : Bool) : List (String × String) :=
  (words.enum.map (fun iw => pairsForWord iw.2 (ts iw.1) cardType includePhrases)).flatten

/-- The `cards` list built by `generate_anki_deck_from_list` (and the
identical loop of `generate_anki_deck_from_frequency`): the two header
directives followed by one tab-joined line per record. -/
def deckCardsFromWords (words : List String) (ts : Nat → Nat) (cardType : String)
    (includePhrases : Bool) : List String :=
  "#separator:tab" :: "#html:true" ::
    (deckPairsFromWords words ts cardType includePhrases).map (fun p => p.1 ++ "\t" ++ p.2)

/-- Python `sep.join(strings)`. -/
def pyJoin (sep : String) : List String → String
  | [] => ""
  | [s] => s
  | s :: t :: r => s ++ sep ++ pyJoin sep (t :: r)

/-- The deck file contents: `"\n".join(cards)` as written by
`f.write(...)`. -/
def serializeDeck (cards : List String) : String := pyJoin "\n" cards

/-- `generate_anki_deck_from_list`: load the word list, build the cards,
and produce the file contents. -/
def generateAnkiDeckFromList (lines : List String) (ts : Nat → Nat) (cardType : String)
    (includePhrases : Bool) : String :=
  serializeDeck (deckCardsFromWords (loadCustomWordList lines) ts cardType includePhrases)

/-!
## Re-parsing the emitted deck (for the round-trip property)
-/

/-- Split file contents into lines at each newline. -/
def splitLines (s : String) : List String :=
  (splitOnChar '\n' s.data).map (fun l => ⟨l⟩)

/-- Split a line on its first tab into a (front, back) pair. -/
def splitFirstTab (s : String) : String × String :=
  (⟨s.data.takeWhile (fun c => c ≠ '\t')⟩,
   ⟨(s.data.dropWhile (fun c => c ≠ '\t')).drop 1⟩)

/-- Re-parse an emitted deck file: drop the two header lines, split each
remaining line on its first tab. -/
def parseDeck (file : String) : List (String × String) :=
  ((splitLines file).drop 2).map splitFirstTab

/-- The spec's description of the stop-word filter, for comparison with the
implementation: keep tokens of length ≥ 2 whose *lower-cased form* is not
in the stop-word set.  (The implementation tests the token itself.) -/
def specStopWordFilter (ws : List String) : List String :=
  ws.filter (fun w => decide (2 ≤ w.length ∧ ¬ stopWords.contains (pyLowerStr w)))

/-- The spec's target alphabet for tokens: letters, including the target
language's accented letters. -/
def isTargetLetter (c : Char) : Bool := c.isAlpha || isGermanChar c

/-!
## Lemmas: the appending loops as filters
-/

lemma stopWordFilter_go : ∀ (ws acc : List String),
    ws.foldl
        (fun acc w =>
          if 2 ≤ w.length ∧ ¬ stopWords.contains w then acc ++ [w] else acc)
        acc
      = acc ++ ws.filter (fun w => decide (2 ≤ w.length ∧ ¬ stopWords.contains w)) := by
  intro ws
  induction ws with
  | nil => intro acc; simp
  | cons w t ih =>
    intro acc
    by_cases h : 2 ≤ w.length ∧ ¬ stopWords.contains w
    · rw [List.foldl_cons, if_pos h, ih, List.filter_cons, if_pos (decide_eq_true h)]
      simp
    · rw [List.foldl_cons, if_neg h, ih, List.filter_cons,
        if_neg (by simp only [decide_eq_true_eq]; exact h)]

/-- The stop-word loop keeps exactly the order-preserved subsequence of
tokens of length ≥ 2 that are not in the stop-word set. -/
lemma stopWordFilter_eq (ws : List String) :
    stopWordFilter ws
      = ws.filter (fun w => decide (2 ≤ w.length ∧ ¬ stopWords.contains w)) := by
  simpa [stopWordFilter] using stopWordFilter_go ws []

lemma loadCustomWordList_go : ∀ (lines acc : List String),
    lines.foldl
        (fun words line =>
          let word := pyStrip line
          if word ≠ "" ∧ ¬ pyStartsWith word "#" then words ++ [pyLowerStr word]
          else words)
        acc
      = acc ++ ((lines.map pyStrip).filter
          (fun w => decide (w ≠ "" ∧ ¬ pyStartsWith w "#"))).map pyLowerStr := by
  intro lines
  induction lines with
  | nil => intro acc; simp
  | cons l t ih =>
    intro acc
    by_cases h : pyStrip l ≠ "" ∧ ¬ pyStartsWith (pyStrip l) "#"
    · rw [List.foldl_cons, List.map_cons, List.filter_cons]
      show List.foldl _ (if pyStrip l ≠ "" ∧ ¬ pyStartsWith (pyStrip l) "#"
          then acc ++ [pyLowerStr (pyStrip l)] else acc) t = _
      rw [if_pos h, ih, if_pos (decide_eq_true h), List.map_cons]
      simp
    · rw [List.foldl_cons, List.map_cons, List.filter_cons]
      show List.foldl _ (if pyStrip l ≠ "" ∧ ¬ pyStartsWith (pyStrip l) "#"
          then acc ++ [pyLowerStr (pyStrip l)] else acc) t = _
      rw [if_neg h, ih, if_neg (by simp only [decide_eq_true_eq]; exact h)]

/-- `load_custom_word_list` is the lower-cased image of the stripped lines
that are neither blank nor comments, in file order (duplicates are kept). -/
lemma loadCustomWordList_eq (lines : List String) :
    loadCustomWordList lines
      = ((lines.map pyStrip).filter
          (fun w => decide (w ≠ "" ∧ ¬ pyStartsWith w "#"))).map pyLowerStr := by
  simpa [loadCustomWordList] using loadCustomWordList_go lines []

/-!
## Lemmas: the stable descending sort `mostCommon`
-/

lemma insertDesc_perm (p : String × Nat) :
    ∀ l : List (String × Nat), (insertDesc p l).Perm (p :: l) := by
  intro l
  induction l with
  | nil => simp [insertDesc]
  | cons q t ih =>
    by_cases h : p.2 < q.2
    · rw [insertDesc, if_pos h]
      exact (ih.cons q).trans (List.Perm.swap p q t)
    · rw [insertDesc, if_neg h]

lemma mostCommon_perm : ∀ l : List (String × Nat), (mostCommon l).Perm l := by
  intro l
  induction l with
  | nil => simp [mostCommon]
  | cons p t ih => exact (insertDesc_perm p (mostCommon t)).trans (ih.cons p)

lemma mem_insertDesc {q p : String × Nat} {l : List (String × Nat)} :
    q ∈ insertDesc p l ↔ q = p ∨ q ∈ l := by
  rw [(insertDesc_perm p l).mem_iff, List.mem_cons]

/-- Inserting an element that precedes (in relation `S`) everything in a
list already sorted for the stable-descending order keeps the list sorted
for that order. -/
lemma pairwise_insertDesc (S : String × Nat → String × Nat → Prop)
    (p : String × Nat) :
    ∀ l : List (String × Nat),
      l.Pairwise (fun x y => y.2 < x.2 ∨ (x.2 = y.2 ∧ S x y)) →
      (∀ b ∈ l, S p b) →
      (insertDesc p l).Pairwise (fun x y => y.2 < x.2 ∨ (x.2 = y.2 ∧ S x y)) := by
  intro l
  induction l with
  | nil => intro _ _; simp [insertDesc]
  | cons q t ih =>
    intro hpw hS
    rcases List.pairwise_cons.mp hpw with ⟨hqall, hpwt⟩
    by_cases h : p.2 < q.2
    · rw [insertDesc, if_pos h]
      refine List.pairwise_cons.mpr ⟨?_, ih hpwt (fun b hb => hS b (List.mem_cons_of_mem q hb))⟩
      intro x hx
      rcases mem_insertDesc.mp hx with rfl | hx'
      · exact Or.inl h
      · exact hqall x hx'
    · rw [insertDesc, if_neg h]
      refine List.pairwise_cons.mpr ⟨?_, hpw⟩
      intro x hx
      rcases List.mem_cons.mp hx with rfl | hx'
      · by_cases hlt : x.2 < p.2
        · exact Or.inl hlt
        · exact Or.inr ⟨by omega, hS x (List.mem_cons_self x t)⟩
      · rcases hqall x hx' with hlt | ⟨heq, _⟩
        · exact Or.inl (by omega)
        · by_cases hlt' : x.2 < p.2
          · exact Or.inl hlt'
          · exact Or.inr ⟨by omega, hS x (List.mem_cons_of_mem q hx')⟩

/-- Stability of `mostCommon`: if a list is pairwise ordered by `S`, its
stable descending sort is pairwise ordered by descending count with `S`
breaking ties. -/
lemma pairwise_mostCommon (S : String × Nat → String × Nat → Prop) :
    ∀ l : List (String × Nat), l.Pairwise S →
      (mostCommon l).Pairwise (fun x y => y.2 < x.2 ∨ (x.2 = y.2 ∧ S x y)) := by
  intro l
  induction l with
  | nil => intro _; simp [mostCommon]
  | cons p t ih =>
    intro hpw
    rcases List.pairwise_cons.mp hpw with ⟨hall, hpwt⟩
    rw [mostCommon]
    refine pairwise_insertDesc S p (mostCommon t) (ih hpwt) ?_
    intro b hb
    exact hall b ((mostCommon_perm t).mem_iff.mp hb)

/-!
## Lemmas: the counting fold (`Counter` insertion order)
-/

lemma addWord_bump_fst (w : String) (p : String × Nat) :
    ((fun p : String × Nat => if p.1 = w then (p.1, p.2 + 1) else p) p).1 = p.1 := by
  dsimp only
  split <;> rfl

lemma addWord_keys (acc : List (String × Nat)) (w : String)
    (hw : (acc.any fun p => decide (p.1 = w)) = true) :
    ((addWord acc w).map Prod.fst) = acc.map Prod.fst := by
  rw [addWord, if_pos hw, List.map_map]
  exact List.map_congr_left (fun p _ => addWord_bump_fst w p)

/-- The single fold step of the counter preserves the invariant that the
table's keys are exactly the words seen so far, listed in strictly
increasing order of first occurrence. -/
lemma counter_invariant :
    ∀ (rest pre : List String) (acc : List (String × Nat)),
      (∀ p ∈ acc, p.1 ∈ pre) →
      (∀ x ∈ pre, x ∈ acc.map Prod.fst) →
      acc.Pairwise (fun p q => pre.indexOf p.1 < pre.indexOf q.1) →
      (∀ p ∈ List.foldl addWord acc rest, p.1 ∈ pre ++ rest) ∧
      (∀ x ∈ pre ++ rest, x ∈ (List.foldl addWord acc rest).map Prod.fst) ∧
      (List.foldl addWord acc rest).Pairwise
        (fun p q => (pre ++ rest).indexOf p.1 < (pre ++ rest).indexOf q.1) := by
  intro rest
  induction rest with
  | nil =>
    intro pre acc h1 h2 h3
    rw [List.foldl_nil, List.append_nil]
    exact ⟨h1, h2, h3⟩
  | cons w rs ih =>
    intro pre acc h1 h2 h3
    have key : pre ++ w :: rs = (pre ++ [w]) ++ rs := by simp
    rw [List.foldl_cons, key]
    by_cases hw : (acc.any fun p => decide (p.1 = w)) = true
    · -- `w` is already a key: its count is bumped, keys are unchanged.
      refine ih (pre ++ [w]) (addWord acc w) ?_ ?_ ?_
      · intro p hp
        rw [addWord, if_pos hw] at hp
        rcases List.mem_map.mp hp with ⟨q, hq, rfl⟩
        rw [addWord_bump_fst]
        exact List.mem_append_left [w] (h1 q hq)
      · intro x hx
        rw [addWord_keys acc w hw]
        rcases List.mem_append.mp hx with hx | hx
        · exact h2 x hx
        · rcases List.any_eq_true.mp hw with ⟨p, hp, hpw⟩
          have : p.1 = w := of_decide_eq_true hpw
          rcases List.mem_singleton.mp hx
          exact this ▸ List.mem_map.mpr ⟨p, hp, rfl⟩
      · rw [addWord, if_pos hw, List.pairwise_map]
        refine h3.imp_of_mem ?_
        intro p q hp hq hlt
        rw [addWord_bump_fst, addWord_bump_fst,
          List.indexOf_append_of_mem (h1 p hp), List.indexOf_append_of_mem (h1 q hq)]
        exact hlt
    · -- `w` is a fresh key: it is appended with count 1.
      have hwnk : ∀ p ∈ acc, p.1 ≠ w := by
        intro p hp heq
        exact hw (List.any_eq_true.mpr ⟨p, hp, decide_eq_true heq⟩)
      have hwpre : w ∉ pre := by
        intro hm
        rcases List.mem_map.mp (h2 w hm) with ⟨p, hp, hfst⟩
        exact hwnk p hp hfst
      refine ih (pre ++ [w]) (addWord acc w) ?_ ?_ ?_
      · intro p hp
        rw [addWord, if_neg hw] at hp
        rcases List.mem_append.mp hp with hp | hp
        · exact List.mem_append_left [w] (h1 p hp)
        · rcases List.mem_singleton.mp hp
          exact List.mem_append_right pre (List.mem_singleton.mpr rfl)
      · intro x hx
        rw [addWord, if_neg hw, List.map_append]
        rcases List.mem_append.mp hx with hx | hx
        · exact List.mem_append_left _ (h2 x hx)
        · rcases List.mem_singleton.mp hx
          exact List.mem_append_right _ (by simp)
      · rw [addWord, if_neg hw]
        rw [List.pairwise_append]
        refine ⟨?_, by simp, ?_⟩
        · refine h3.imp_of_mem ?_
          intro p q hp hq hlt
          rw [List.indexOf_append_of_mem (h1 p hp), List.indexOf_append_of_mem (h1 q hq)]
          exact hlt
        · intro p hp q hq
          rcases List.mem_singleton.mp hq
          have hplen : pre.indexOf p.1 < pre.length :=
            List.indexOf_lt_length.mpr (h1 p hp)
          rw [List.indexOf_append_of_mem (h1 p hp),
            List.indexOf_append_of_not_mem hwpre]
          simp only [List.indexOf_cons_self]
          omega

/-- Every key of the frequency table occurs in the word list. -/
lemma counter_key_mem (ws : List String) :
    ∀ p ∈ createFrequencyAnalysis ws, p.1 ∈ ws := by
  have h := counter_invariant ws [] [] (by simp) (by simp) (by simp)
  simpa [createFrequencyAnalysis] using h.1

/-- Every word of the list is a key of the frequency table. -/
lemma counter_mem_key (ws : List String) :
    ∀ x ∈ ws, x ∈ (createFrequencyAnalysis ws).map Prod.fst := by
  have h := counter_invariant ws [] [] (by simp) (by simp) (by simp)
  simpa [createFrequencyAnalysis] using h.2.1

/-- The table's entries are listed in strictly increasing order of the
first occurrence of their key in the word list. -/
lemma counter_pairwise_indexOf (ws : List String) :
    (createFrequencyAnalysis ws).Pairwise
      (fun p q => ws.indexOf p.1 < ws.indexOf q.1) := by
  have h := counter_invariant ws [] [] (by simp) (by simp) (by simp)
  simpa [createFrequencyAnalysis] using h.2.2

/-- The table's keys are distinct. -/
lemma counter_keys_nodup (ws : List String) :
    ((createFrequencyAnalysis ws).map Prod.fst).Nodup := by
  rw [List.Nodup, List.pairwise_map]
  refine (counter_pairwise_indexOf ws).imp ?_
  intro p q hlt heq
  rw [heq] at hlt
  exact Nat.lt_irrefl _ hlt

lemma sumCounts_map_bump (w : String) :
    ∀ acc : List (String × Nat), (acc.map Prod.fst).Nodup →
      (∃ p ∈ acc, p.1 = w) →
      sumCounts (acc.map (fun p => if p.1 = w then (p.1, p.2 + 1) else p))
        = sumCounts acc + 1 := by
  intro acc
  induction acc with
  | nil => intro _ h; simp at h
  | cons p t ih =>
    intro hnd hex
    rw [List.map_cons, List.nodup_cons] at hnd
    obtain ⟨hpn, hndt⟩ := hnd
    by_cases hp : p.1 = w
    · have ht : t.map (fun q : String × Nat => if q.1 = w then (q.1, q.2 + 1) else q) = t := by
        conv_rhs => rw [← List.map_id t]
        apply List.map_congr_left
        intro q hq
        have : q.1 ≠ w := by
          intro hqw
          exact hpn (hp ▸ hqw ▸ List.mem_map.mpr ⟨q, hq, rfl⟩)
        simp [this]
      simp only [List.map_cons, if_pos hp, ht, sumCounts, List.sum_cons]
      omega
    · rcases hex with ⟨q, hq, hqw⟩
      rcases List.mem_cons.mp hq with rfl | hqt
      · exact absurd hqw hp
      · have := ih hndt ⟨q, hqt, hqw⟩
        simp only [List.map_cons, if_neg hp, sumCounts, List.sum_cons] at *
        omega

lemma addWord_sum (acc : List (String × Nat)) (w : String)
    (hnd : (acc.map Prod.fst).Nodup) :
    sumCounts (addWord acc w) = sumCounts acc + 1 := by
  by_cases hw : (acc.any fun p => decide (p.1 = w)) = true
  · rw [addWord, if_pos hw]
    rcases List.any_eq_true.mp hw with ⟨p, hp, hpw⟩
    exact sumCounts_map_bump w acc hnd ⟨p, hp, of_decide_eq_true hpw⟩
  · rw [addWord, if_neg hw]
    simp [sumCounts]

lemma addWord_nodup (acc : List (String × Nat)) (w : String)
    (hnd : (acc.map Prod.fst).Nodup) :
    ((addWord acc w).map Prod.fst).Nodup := by
  by_cases hw : (acc.any fun p => decide (p.1 = w)) = true
  · rw [addWord_keys acc w hw]; exact hnd
  · rw [addWord, if_neg hw, List.map_append]
    rw [List.nodup_append]
    refine ⟨hnd, by simp, ?_⟩
    intro x hx hx'
    rcases List.mem_map.mp hx with ⟨p, hp, rfl⟩
    have : p.1 = w := by simpa using hx'
    exact hw (List.any_eq_true.mpr ⟨p, hp, decide_eq_true this⟩)

lemma counter_sum_go :
    ∀ (rest : List String) (acc : List (String × Nat)),
      (acc.map Prod.fst).Nodup →
      sumCounts (List.foldl addWord acc rest) = sumCounts acc + rest.length := by
  intro rest
  induction rest with
  | nil => intro acc _; simp
  | cons w rs ih =>
    intro acc hnd
    rw [List.foldl_cons, ih (addWord acc w) (addWord_nodup acc w hnd),
      addWord_sum acc w hnd]
    simp [Nat.add_assoc, Nat.add_comm 1]

/-- The counts in the frequency table sum to the number of counted
tokens. -/
lemma counter_sum (ws : List String) :
    sumCounts (createFrequencyAnalysis ws) = ws.length := by
  simpa [createFrequencyAnalysis, sumCounts] using counter_sum_go ws [] (by simp)

/-- The number of table entries is the number of distinct counted
tokens. -/
lemma counter_length (ws : List String) :
    (createFrequencyAnalysis ws).length = ws.toFinset.card := by
  have hkeys : ((createFrequencyAnalysis ws).map Prod.fst).toFinset = ws.toFinset := by
    ext x
    simp only [List.mem_toFinset]
    constructor
    · intro hx
      rcases List.mem_map.mp hx with ⟨p, hp, rfl⟩
      exact counter_key_mem ws p hp
    · intro hx
      exact counter_mem_key ws x hx
  calc (createFrequencyAnalysis ws).length
      = ((createFrequencyAnalysis ws).map Prod.fst).length := (List.length_map _ _).symm
    _ = ((createFrequencyAnalysis ws).map Prod.fst).toFinset.card :=
        (List.toFinset_card_of_nodup (counter_keys_nodup ws)).symm
    _ = ws.toFinset.card := by rw [hkeys]

/-- **C1**: the ranked frequency listing (`most_common`) is a permutation
of the frequency table that orders entries by strictly descending
occurrence count, breaking ties between equal counts by the
corpus-encounter order of each token's first appearance (the index of its
first occurrence in the token stream); and the same input corpus always
yields the same table and the same ranked ordering (the pipeline is a pure
function of the corpus). -/
theorem claim_C1_ranking (ws : List String) :
    (mostCommon (createFrequencyAnalysis ws)).Perm (createFrequencyAnalysis ws) ∧
    (mostCommon (createFrequencyAnalysis ws)).Pairwise
      (fun p q => q.2 < p.2 ∨ (p.2 = q.2 ∧ ws.indexOf p.1 < ws.indexOf q.1)) ∧
    (∀ ws', ws' = ws →
      createFrequencyAnalysis ws' = createFrequencyAnalysis ws ∧
      mostCommon (createFrequencyAnalysis ws') = mostCommon (createFrequencyAnalysis ws)) := by
  refine ⟨mostCommon_perm _, ?_, ?_⟩
  · exact pairwise_mostCommon _ _ (counter_pairwise_indexOf ws)
  · intro ws' h
    rw [h]
    exact ⟨rfl, rfl⟩

/-- Witness for C1 at a concrete corpus: the spec's own scenario
`["haus", "katze", "haus"]`, whose ranked listing is
`[("haus", 2), ("katze", 1)]`. -/
theorem claim_C1_witness :
    ((mostCommon (createFrequencyAnalysis ["haus", "katze", "haus"])).Perm
        (createFrequencyAnalysis ["haus", "katze", "haus"]) ∧
      (mostCommon (createFrequencyAnalysis ["haus", "katze", "haus"])).Pairwise
        (fun p q => q.2 < p.2 ∨
          (p.2 = q.2 ∧ ["haus", "katze", "haus"].indexOf p.1 <
            ["haus", "katze", "haus"].indexOf q.1)) ∧
      (∀ ws', ws' = ["haus", "katze", "haus"] →
        createFrequencyAnalysis ws' = createFrequencyAnalysis ["haus", "katze", "haus"] ∧
        mostCommon (createFrequencyAnalysis ws')
          = mostCommon (createFrequencyAnalysis ["haus", "katze", "haus"]))) ∧
    mostCommon (createFrequencyAnalysis ["haus", "katze", "haus"])
      = [("haus", 2), ("katze", 1)] :=
  ⟨claim_C1_ranking ["haus", "katze", "haus"], by decide⟩

/-- **C2**: for any corpus, the frequency table built from the filtered
token stream has counts summing to the number of tokens that survived
filtering, and as many entries as there are distinct surviving tokens. -/
theorem claim_C2_table_totals (lines : List String) :
    sumCounts (createFrequencyAnalysis (extractGermanWords lines))
      = (extractGermanWords lines).length ∧
    (createFrequencyAnalysis (extractGermanWords lines)).length
      = (extractGermanWords lines).toFinset.card :=
  ⟨counter_sum _, counter_length _⟩

/-- **C4 (amended)**: the stop-word filter keeps exactly the
order-preserving subsequence of tokens of length ≥ 2 that are themselves
not in the stop-word set; the implementation tests the token as-is rather
than its lower-cased form, so the spec's description coincides with it on
the already lower-cased streams the tokenizer produces (hypothesis `h`),
and every emitted token has length ≥ 2 and is not in the stop-word set. -/
theorem claim_C4_amended_stopword_filter (ws : List String)
    (h : ∀ w ∈ ws, pyLowerStr w = w) :
    stopWordFilter ws
      = ws.filter (fun w => decide (2 ≤ w.length ∧ ¬ stopWords.contains w)) ∧
    stopWordFilter ws = specStopWordFilter ws ∧
    ∀ w ∈ stopWordFilter ws, 2 ≤ w.length ∧ ¬ stopWords.contains w := by
  refine ⟨stopWordFilter_eq ws, ?_, ?_⟩
  · rw [stopWordFilter_eq, specStopWordFilter]
    apply List.filter_congr
    intro w hw
    rw [h w hw]
  · intro w hw
    rw [stopWordFilter_eq] at hw
    exact of_decide_eq_true (List.mem_filter.mp hw).2

/-- Counterexample to C4 as stated: on the mixed-case token sequence
`["Der"]` the implementation keeps `"Der"` (it is not literally in the
lower-case stop-word set), while the claimed subsequence — tokens whose
lower-cased form is not a stop word — is empty. -/
theorem claim_C4_counterexample :
    stopWordFilter ["Der"] = ["Der"] ∧ specStopWordFilter ["Der"] = [] ∧
    stopWordFilter ["Der"] ≠ specStopWordFilter ["Der"] :=
  ⟨by decide, by decide, by decide⟩

/-- Witness for C4 at a concrete lower-case token sequence. -/
theorem claim_C4_witness :
    (∀ w ∈ ["haus", "der", "katze"], pyLowerStr w = w) ∧
    (stopWordFilter ["haus", "der", "katze"]
        = ["haus", "der", "katze"].filter
            (fun w => decide (2 ≤ w.length ∧ ¬ stopWords.contains w)) ∧
      stopWordFilter ["haus", "der", "katze"]
        = specStopWordFilter ["haus", "der", "katze"] ∧
      ∀ w ∈ stopWordFilter ["haus", "der", "katze"],
        2 ≤ w.length ∧ ¬ stopWords.contains w) ∧
    stopWordFilter ["haus", "der", "katze"] = ["haus", "katze"] :=
  ⟨by decide, claim_C4_amended_stopword_filter _ (by decide), by decide⟩

/-- **C5** (the claim is right, the code is wrong): a corpus of only
comment/blank lines does yield an empty token stream and an empty
frequency table, but `print_summary` then evaluates
`total_words/unique_words` with `unique_words == 0` and raises
`ZeroDivisionError` (and `create_simple_visualization` indexes
`top_words[0]` of an empty slice, an `IndexError`) instead of reporting
zero unique words. -/
theorem claim_C5_empty_corpus_crash :
    extractGermanWords ["# German A1 Deck", "", "   "] = [] ∧
    createFrequencyAnalysis (extractGermanWords ["# German A1 Deck", "", "   "]) = [] ∧
    printSummary (createFrequencyAnalysis (extractGermanWords ["# German A1 Deck", "", "   "]))
      = Except.error "ZeroDivisionError: division by zero" ∧
    createSimpleVisualization [] 30 = Except.error "IndexError: list index out of range" :=
  ⟨by decide, by decide, rfl, rfl⟩

/-- **C6 (amended)**: loading a word-list file yields the lower-cased,
order-preserving sequence of the stripped lines that are neither blank nor
`#`-comments — duplicates are *kept* (no de-duplication happens on this
path; only the separate multiple-lists path de-duplicates). -/
theorem claim_C6_amended_loader (lines : List String) :
    loadCustomWordList lines
      = ((lines.map pyStrip).filter
          (fun w => decide (w ≠ "" ∧ ¬ pyStartsWith w "#"))).map pyLowerStr :=
  loadCustomWordList_eq lines

/-- Counterexample to C6 as stated: the file
`"# comment\n\nHaus\nKatze\nHaus\n"` loads as
`["haus", "katze", "haus"]`, not the claimed de-duplicated
`["haus", "katze"]`. -/
theorem claim_C6_counterexample :
    loadCustomWordList ["# comment", "", "Haus", "Katze", "Haus"]
      = ["haus", "katze", "haus"] ∧
    loadCustomWordList ["# comment", "", "Haus", "Katze", "Haus"]
      ≠ ["haus", "katze"] :=
  ⟨by decide, by decide⟩

/-- **C9 (amended)**: with no translation supplied, the synthesized back
text is a non-empty placeholder referencing the word for the `word`,
`phrase` and `question` selectors, but for the default/unrecognized
selector (including the default `simple`) it is the *empty string*, not a
placeholder; synthesis is total and never raises. -/
theorem claim_C9_amended_back_text (word audioFile cardType : String) (ts : Nat) :
    (cardType = "word" →
      (createAnkiCardPair word "" audioFile cardType ts).2 = "Translation for: " ++ word) ∧
    (cardType = "phrase" →
      (createAnkiCardPair word "" audioFile cardType ts).2 = "Practice phrase with: " ++ word) ∧
    (cardType = "question" →
      (createAnkiCardPair word "" audioFile cardType ts).2 = "Meaning of: " ++ word) ∧
    (cardType ≠ "word" → cardType ≠ "phrase" → cardType ≠ "question" →
      (createAnkiCardPair word "" audioFile cardType ts).2 = "") := by
  refine ⟨?_, ?_, ?_, ?_⟩
  · intro h; subst h; rfl
  · intro h; subst h; rfl
  · intro h; subst h; rfl
  · intro h1 h2 h3
    rw [createAnkiCardPair, if_neg h1, if_neg h2, if_neg h3]
    rfl

/-- Counterexample to C9 as stated: for the default selector (`simple`)
and no translation, the back text is empty, not a non-empty placeholder
referencing the word. -/
theorem claim_C9_counterexample :
    (createAnkiCardPair "haus" "" "a.mp3" "simple" 0).2 = "" := rfl

/-- Witness for C9 at the `word` selector. -/
theorem claim_C9_witness :
    (createAnkiCardPair "haus" "" "a.mp3" "word" 0).2 = "Translation for: " ++ "haus" :=
  (claim_C9_amended_back_text "haus" "a.mp3" "word" 0).1 rfl

/-!
## Lemmas: phrase expansion (C10)
-/

/-- With phrase expansion on, one word contributes exactly its own card
followed by the first two `simple` templates (`Das ist ⟨w⟩.` and
`Ich habe ⟨w⟩.`) as `phrase` cards. -/
lemma pairsForWord_phrases (w : String) (ts : Nat) (ct : String) :
    pairsForWord w ts ct true
      = [createAnkiCardPair w "" (w ++ "_" ++ natRepr ts ++ ".mp3") ct ts,
         createAnkiCardPair ("Das ist " ++ w ++ ".") ""
           ("phrase_" ++ w ++ "_" ++ natRepr (ts + 1) ++ ".mp3") "phrase" ts,
         createAnkiCardPair ("Ich habe " ++ w ++ ".") ""
           ("phrase_" ++ w ++ "_" ++ natRepr (ts + 2) ++ ".mp3") "phrase" ts] := rfl

lemma sum_map_const_nat {α : Type} (l : List α) (k : Nat) :
    (l.map (fun _ => k)).sum = k * l.length := by
  induction l with
  | nil => simp
  | cons a t ih =>
    simp only [List.map_cons, List.sum_cons, ih, List.length_cons, Nat.mul_succ]
    omega

/-- **C10**: when phrase expansion is requested, every word contributes
exactly three deck records — its own card, then the two phrase cards
`Das ist ⟨word⟩.` and `Ich habe ⟨word⟩.` (the first two templates of the
`simple` category) — immediately in that order, so the deck body holds
exactly `3 ×` the number of words. -/
theorem claim_C10_phrase_expansion (words : List String) (ts : Nat → Nat)
    (cardType : String) :
    deckPairsFromWords words ts cardType true
      = (words.enum.map (fun iw =>
          [createAnkiCardPair iw.2 ""
             (iw.2 ++ "_" ++ natRepr (ts iw.1) ++ ".mp3") cardType (ts iw.1),
           createAnkiCardPair ("Das ist " ++ iw.2 ++ ".") ""
             ("phrase_" ++ iw.2 ++ "_" ++ natRepr (ts iw.1 + 1) ++ ".mp3") "phrase" (ts iw.1),
           createAnkiCardPair ("Ich habe " ++ iw.2 ++ ".") ""
             ("phrase_" ++ iw.2 ++ "_" ++ natRepr (ts iw.1 + 2) ++ ".mp3") "phrase"
             (ts iw.1)])).flatten ∧
    (deckPairsFromWords words ts cardType true).length = 3 * words.length := by
  have h1 : deckPairsFromWords words ts cardType true
      = (words.enum.map (fun iw =>
          [createAnkiCardPair iw.2 ""
             (iw.2 ++ "_" ++ natRepr (ts iw.1) ++ ".mp3") cardType (ts iw.1),
           createAnkiCardPair ("Das ist " ++ iw.2 ++ ".") ""
             ("phrase_" ++ iw.2 ++ "_" ++ natRepr (ts iw.1 + 1) ++ ".mp3") "phrase" (ts iw.1),
           createAnkiCardPair ("Ich habe " ++ iw.2 ++ ".") ""
             ("phrase_" ++ iw.2 ++ "_" ++ natRepr (ts iw.1 + 2) ++ ".mp3") "phrase"
             (ts iw.1)])).flatten := rfl
  refine ⟨h1, ?_⟩
  rw [h1, List.length_flatten, List.map_map]
  have h2 : (List.length ∘ (fun iw : Nat × String =>
        [createAnkiCardPair iw.2 ""
           (iw.2 ++ "_" ++ natRepr (ts iw.1) ++ ".mp3") cardType (ts iw.1),
         createAnkiCardPair ("Das ist " ++ iw.2 ++ ".") ""
           ("phrase_" ++ iw.2 ++ "_" ++ natRepr (ts iw.1 + 1) ++ ".mp3") "phrase" (ts iw.1),
         createAnkiCardPair ("Ich habe " ++ iw.2 ++ ".") ""
           ("phrase_" ++ iw.2 ++ "_" ++ natRepr (ts iw.1 + 2) ++ ".mp3") "phrase"
           (ts iw.1)]))
      = fun _ : Nat × String => 3 := by
    funext iw
    rfl
  rw [h2, sum_map_const_nat, List.enum_length]

/-!
## Lemmas: character classes through the cleaning pipeline (C3)
-/

lemma mem_squeezeSpaces : ∀ (l : List Char) (c : Char), c ∈ squeezeSpaces l → c ∈ l := by
  intro l
  induction l with
  | nil => intro c h; simp [squeezeSpaces] at h
  | cons a t ih =>
    cases t with
    | nil => intro c h; simpa [squeezeSpaces] using h
    | cons b u =>
      intro c h
      rw [squeezeSpaces] at h
      split at h
      · exact List.mem_cons_of_mem a (ih c h)
      · rcases List.mem_cons.mp h with rfl | h'
        · exact List.mem_cons_self c _
        · exact List.mem_cons_of_mem a (ih c h')

/-- Every character of `collapseWs l` is either a plain space or a
non-whitespace character. -/
lemma collapseWs_char (l : List Char) (c : Char) (h : c ∈ collapseWs l) :
    c = ' ' ∨ isPySpace c = false := by
  rcases List.mem_map.mp (mem_squeezeSpaces _ c h) with ⟨a, _, ha⟩
  by_cases hs : isPySpace a
  · left
    rw [← ha, if_pos hs]
  · subst ha
    rw [if_neg hs]
    exact Or.inr (by simpa using hs)

lemma mem_pyStripL (l : List Char) (c : Char) (h : c ∈ pyStripL l) : c ∈ l := by
  rw [pyStripL, List.mem_reverse] at h
  have h1 := (List.dropWhile_sublist _).mem h
  rw [List.mem_reverse] at h1
  exact (List.dropWhile_sublist _).mem h1

/-- Every character of a cleaned field is a word character or a plain
space. -/
lemma cleanGermanText_char (s : String) (c : Char)
    (h : c ∈ (cleanGermanText s).data) : isPyWordChar c = true ∨ c = ' ' := by
  rw [cleanGermanText] at h
  rcases List.mem_map.mp h with ⟨a, ha, hac⟩
  by_cases hk : isPyWordChar a || isPySpace a || isGermanChar a
  · rw [if_pos hk] at hac
    rcases collapseWs_char _ a (mem_pyStripL _ a ha) with hsp | hns
    · right
      rw [← hac, hsp]
    · left
      rw [← hac]
      rcases Bool.or_eq_true_iff.mp hk with hk' | hg
      · rcases Bool.or_eq_true_iff.mp hk' with hw | hs
        · exact hw
        · rw [hs] at hns
          cases hns
      · rw [isPyWordChar, hg]
        simp
  · rw [if_neg hk] at hac
    exact Or.inr hac.symm

/-- `lowerPairs` only produces word characters. -/
lemma lowerPairs_snd_word : ∀ p ∈ lowerPairs, isPyWordChar p.2 = true := by decide

lemma pyLower_word (c : Char) (h : isPyWordChar c = true) :
    isPyWordChar (pyLower c) = true := by
  rw [pyLower]
  cases hf : lowerPairs.find? (fun p => p.1 = c) with
  | none => exact h
  | some p => exact lowerPairs_snd_word p (List.mem_of_find?_eq_some hf)

lemma pyLower_space : pyLower ' ' = ' ' := by decide

/-- Every character of the lower-cased cleaned field is a word character
or a plain space. -/
lemma lower_clean_char (s : String) (c : Char)
    (h : c ∈ (pyLowerStr (cleanGermanText s)).data) :
    isPyWordChar c = true ∨ c = ' ' := by
  rcases List.mem_map.mp h with ⟨a, ha, hac⟩
  rcases cleanGermanText_char s a ha with hw | hsp
  · exact Or.inl (hac ▸ pyLower_word a hw)
  · right
    rw [← hac, hsp, pyLower_space]

/-- Soundness of whitespace splitting: every token is non-empty and made
of non-whitespace characters of the input. -/
lemma pySplitWs_fold_sound : ∀ l : List Char,
    (∀ c ∈ (l.foldr pySplitWsStep ([], [])).1, c ∈ l ∧ isPySpace c = false) ∧
    (∀ t ∈ (l.foldr pySplitWsStep ([], [])).2,
      t ≠ [] ∧ ∀ c ∈ t, c ∈ l ∧ isPySpace c = false) := by
  intro l
  induction l with
  | nil => exact ⟨by simp, by simp⟩
  | cons a u ih =>
    rw [List.foldr_cons]
    obtain ⟨ih1, ih2⟩ := ih
    rw [pySplitWsStep]
    by_cases hs : isPySpace a
    · rw [if_pos hs]
      by_cases he : (u.foldr pySplitWsStep ([], [])).1 = []
      · rw [if_pos he]
        refine ⟨?_, ?_⟩
        · intro c hc
          exact ⟨List.mem_cons_of_mem a (ih1 c hc).1, (ih1 c hc).2⟩
        · intro t ht
          exact ⟨(ih2 t ht).1, fun c hc =>
            ⟨List.mem_cons_of_mem a ((ih2 t ht).2 c hc).1, ((ih2 t ht).2 c hc).2⟩⟩
      · rw [if_neg he]
        refine ⟨by simp, ?_⟩
        intro t ht
        rcases List.mem_cons.mp ht with rfl | ht'
        · exact ⟨he, fun c hc =>
            ⟨List.mem_cons_of_mem a (ih1 c hc).1, (ih1 c hc).2⟩⟩
        · exact ⟨(ih2 t ht').1, fun c hc =>
            ⟨List.mem_cons_of_mem a ((ih2 t ht').2 c hc).1, ((ih2 t ht').2 c hc).2⟩⟩
    · rw [if_neg hs]
      refine ⟨?_, ?_⟩
      · intro c hc
        rcases List.mem_cons.mp hc with rfl | hc'
        · exact ⟨List.mem_cons_self c _, by simpa using hs⟩
        · exact ⟨List.mem_cons_of_mem a (ih1 c hc').1, (ih1 c hc').2⟩
      · intro t ht
        exact ⟨(ih2 t ht).1, fun c hc =>
          ⟨List.mem_cons_of_mem a ((ih2 t ht).2 c hc).1, ((ih2 t ht).2 c hc).2⟩⟩

lemma pySplitWs_sound (l : List Char) :
    ∀ t ∈ pySplitWs l, t ≠ [] ∧ ∀ c ∈ t, c ∈ l ∧ isPySpace c = false := by
  intro t ht
  rw [pySplitWs] at ht
  obtain ⟨h1, h2⟩ := pySplitWs_fold_sound l
  by_cases he : (l.foldr pySplitWsStep ([], [])).1 = []
  · rw [if_pos he] at ht
    exact h2 t ht
  · rw [if_neg he] at ht
    rcases List.mem_cons.mp ht with rfl | ht'
    · exact ⟨he, h1⟩
    · exact h2 t ht'

/-- Tokens emitted by the tokenizer on a cleaned field consist entirely of
word characters. -/
lemma tokenize_clean_char (s : String) :
    ∀ tok ∈ tokenize (cleanGermanText s), tok ≠ "" ∧
      ∀ c ∈ tok.data, isPyWordChar c = true := by
  intro tok htok
  rcases List.mem_map.mp htok with ⟨t, ht, rfl⟩
  obtain ⟨hne, hch⟩ := pySplitWs_sound _ t ht
  refine ⟨by simpa [String.ext_iff] using hne, ?_⟩
  intro c hc
  rcases lower_clean_char s c ((hch c hc).1) with hw | hsp
  · exact hw
  · subst hsp
    have := (hch ' ' hc).2
    simp [isPySpace] at this

/-- Members of the stop-word-filtered stream come from the input stream. -/
lemma stopWordFilter_subset (ws : List String) :
    ∀ w ∈ stopWordFilter ws, w ∈ ws := by
  intro w hw
  rw [stopWordFilter_eq] at hw
  exact (List.mem_filter.mp hw).1

/-- Tokens produced by `lineTokens` are tokens of some cleaned field. -/
lemma lineTokens_char (line : String) :
    ∀ tok ∈ lineTokens line, tok ≠ "" ∧ ∀ c ∈ tok.data, isPyWordChar c = true := by
  intro tok htok
  rw [lineTokens] at htok
  split at htok
  · cases htok
  · split at htok
    · exact tokenize_clean_char _ tok (stopWordFilter_subset _ tok htok)
    · cases htok

/-- **C3 (amended)**: every token emitted by the extraction pipeline is
non-empty, contains no whitespace, no markup, and no punctuation — every
character is a Python word character (`\w`: a letter, including the German
umlauts/sharp s, a digit, or an underscore).  Digits and underscores are
*not* removed: the normalization keeps the whole `\w` class rather than
letters only, so the claim's "consists only of letters" fails (see the
counterexample). -/
theorem claim_C3_amended_token_chars (lines : List String) (tok : String)
    (h : tok ∈ extractGermanWords lines) :
    tok ≠ "" ∧ ∀ c ∈ tok.data, isPyWordChar c = true := by
  rw [extractGermanWords] at h
  rcases List.mem_flatten.mp h with ⟨ts, hts, htok⟩
  rcases List.mem_map.mp hts with ⟨line, _, rfl⟩
  exact lineTokens_char line tok htok

set_option maxHeartbeats 2000000 in
/-- Counterexample to C3 as stated: the corpus line `"haus1\tx"` produces
the token `"haus1"`, which contains the digit `'1'` — not a letter of the
target alphabet. -/
theorem claim_C3_counterexample :
    extractGermanWords ["haus1\tx"] = ["haus1"] ∧
    '1' ∈ ("haus1" : String).data ∧ isTargetLetter '1' = false :=
  ⟨by decide, by decide, by decide⟩

set_option maxHeartbeats 2000000 in
/-- Witness for C3 at a concrete corpus line. -/
theorem claim_C3_witness :
    ("haus" ∈ extractGermanWords ["Haus\tthe house"]) ∧
    ("haus" ≠ "" ∧ ∀ c ∈ ("haus" : String).data, isPyWordChar c = true) :=
  ⟨by decide, claim_C3_amended_token_chars ["Haus\tthe house"] "haus" (by decide)⟩

/-!
## Lemmas: joining and re-splitting deck files (C7, C8)
-/

lemma splitOnChar_ne_nil (sep : Char) : ∀ l : List Char, splitOnChar sep l ≠ [] := by
  intro l
  cases l with
  | nil => simp [splitOnChar]
  | cons c t =>
    cases h : splitOnChar sep t with
    | nil => simp [splitOnChar, splitOnCharCons, h]
    | cons a r =>
      rw [splitOnChar, h, splitOnCharCons]
      split <;> simp

/-- Splitting a separator-free list yields the single piece. -/
lemma splitOnChar_eq_single (sep : Char) :
    ∀ l : List Char, (∀ c ∈ l, c ≠ sep) → splitOnChar sep l = [l] := by
  intro l
  induction l with
  | nil => intro _; rfl
  | cons c t ih =>
    intro h
    have hc : c ≠ sep := h c (List.mem_cons_self c t)
    have ht := ih (fun d hd => h d (List.mem_cons_of_mem c hd))
    rw [splitOnChar, ht, splitOnCharCons, if_neg hc]

/-- Splitting at the first separator peels off the separator-free
prefix. -/
lemma splitOnChar_append (sep : Char) :
    ∀ (l r : List Char), (∀ c ∈ l, c ≠ sep) →
      splitOnChar sep (l ++ sep :: r) = l :: splitOnChar sep r := by
  intro l r
  induction l with
  | nil =>
    intro _
    rw [List.nil_append]
    cases h : splitOnChar sep r with
    | nil => exact absurd h (splitOnChar_ne_nil sep r)
    | cons a u => rw [splitOnChar, h, splitOnCharCons, if_pos rfl, ← h]
  | cons c t ih =>
    intro h
    have hc : c ≠ sep := h c (List.mem_cons_self c t)
    have ht := ih (fun d hd => h d (List.mem_cons_of_mem c hd))
    rw [List.cons_append, splitOnChar, ht, splitOnCharCons, if_neg hc]

/-- Re-splitting a newline-join of newline-free lines recovers the
lines. -/
lemma splitLines_pyJoin : ∀ L : List String, L ≠ [] →
    (∀ s ∈ L, ∀ c ∈ s.data, c ≠ '\n') → splitLines (pyJoin "\n" L) = L := by
  intro L
  induction L with
  | nil => intro h _; cases h rfl
  | cons s t ih =>
    intro _ hcl
    cases t with
    | nil =>
      rw [pyJoin, splitLines,
        splitOnChar_eq_single '\n' s.data (hcl s (List.mem_cons_self s []))]
      rfl
    | cons u v =>
      rw [pyJoin]
      have hdata : (s ++ "\n" ++ pyJoin "\n" (u :: v)).data
          = s.data ++ '\n' :: (pyJoin "\n" (u :: v)).data := by
        rw [String.data_append, String.data_append, List.append_assoc]
        rfl
      rw [splitLines, hdata,
        splitOnChar_append '\n' _ _ (hcl s (List.mem_cons_self s (u :: v))),
        List.map_cons]
      have htail : (splitOnChar '\n' (pyJoin "\n" (u :: v)).data).map
          (fun l : List Char => (⟨l⟩ : String)) = u :: v :=
        ih (by simp) (fun x hx => hcl x (List.mem_cons_of_mem s hx))
      rw [htail]

lemma takeWhile_append_sep (sep : Char) :
    ∀ (l r : List Char), (∀ c ∈ l, c ≠ sep) →
      (l ++ sep :: r).takeWhile (fun c => c ≠ sep) = l ∧
      (l ++ sep :: r).dropWhile (fun c => c ≠ sep) = sep :: r := by
  intro l r
  induction l with
  | nil =>
    intro _
    rw [List.nil_append]
    have hsep : (decide (sep ≠ sep)) = false := by simp
    constructor
    · rw [List.takeWhile_cons]
      rw [if_neg (by simp)]
    · rw [List.dropWhile_cons]
      rw [if_neg (by simp)]
  | cons c t ih =>
    intro h
    have hc : c ≠ sep := h c (List.mem_cons_self c t)
    obtain ⟨h1, h2⟩ := ih (fun d hd => h d (List.mem_cons_of_mem c hd))
    constructor
    · rw [List.cons_append, List.takeWhile_cons, if_pos (decide_eq_true hc), h1]
    · rw [List.cons_append, List.dropWhile_cons, if_pos (decide_eq_true hc), h2]

/-- Splitting a tab-joined line on its first tab recovers the pair, for a
tab-free front. -/
lemma splitFirstTab_join (f b : String) (h : ∀ c ∈ f.data, c ≠ '\t') :
    splitFirstTab (f ++ "\t" ++ b) = (f, b) := by
  have hdata : (f ++ "\t" ++ b).data = f.data ++ '\t' :: b.data := by
    rw [String.data_append, String.data_append, List.append_assoc]
    rfl
  rw [splitFirstTab, hdata, (takeWhile_append_sep '\t' f.data b.data h).1,
    (takeWhile_append_sep '\t' f.data b.data h).2]
  rfl

/-!
## Lemmas: tab/newline-freeness of synthesized cards (C7, C8)
-/

/-- A string containing neither a tab nor a newline. -/
abbrev CleanStr (s : String) : Prop := ∀ c ∈ s.data, c ≠ '\t' ∧ c ≠ '\n'

lemma cleanStr_append {a b : String} (ha : CleanStr a) (hb : CleanStr b) :
    CleanStr (a ++ b) := by
  intro c hc
  rw [String.data_append] at hc
  rcases List.mem_append.mp hc with hc | hc
  · exact ha c hc
  · exact hb c hc

lemma digitChar_isDigit (m : Nat) (h : m < 10) : (Nat.digitChar m).isDigit = true := by
  interval_cases m <;> decide

lemma natReprAux_digits :
    ∀ (fuel n : Nat), ∀ c ∈ natReprAux fuel n, c.isDigit = true := by
  intro fuel
  induction fuel with
  | zero =>
    intro n c hc
    rw [natReprAux] at hc
    rcases List.mem_singleton.mp hc
    exact digitChar_isDigit (n % 10) (Nat.mod_lt n (by omega))
  | succ f ih =>
    intro n c hc
    rw [natReprAux] at hc
    split at hc
    · rcases List.mem_singleton.mp hc
      exact digitChar_isDigit n (by omega)
    · rcases List.mem_append.mp hc with hc | hc
      · exact ih (n / 10) c hc
      · rcases List.mem_singleton.mp hc
        exact digitChar_isDigit (n % 10) (Nat.mod_lt n (by omega))

lemma cleanStr_natRepr (n : Nat) : CleanStr (natRepr n) := by
  intro c hc
  have hd := natReprAux_digits n n c hc
  constructor <;> intro he <;> rw [he] at hd <;> exact absurd hd (by decide)

lemma lowerPairs_snd_clean : ∀ p ∈ lowerPairs, p.2 ≠ '\t' ∧ p.2 ≠ '\n' := by decide

lemma pyLower_clean (c : Char) (h : c ≠ '\t' ∧ c ≠ '\n') :
    pyLower c ≠ '\t' ∧ pyLower c ≠ '\n' := by
  rw [pyLower]
  cases hf : lowerPairs.find? (fun p => p.1 = c) with
  | none => exact h
  | some p => exact lowerPairs_snd_clean p (List.mem_of_find?_eq_some hf)

/-- Words loaded from tab/newline-free lines are tab/newline-free. -/
lemma loadCustomWordList_clean (lines : List String)
    (h : ∀ l ∈ lines, CleanStr l) :
    ∀ w ∈ loadCustomWordList lines, CleanStr w := by
  intro w hw
  rw [loadCustomWordList_eq] at hw
  rcases List.mem_map.mp hw with ⟨x, hx, rfl⟩
  have hx' : x ∈ lines.map pyStrip := List.mem_of_mem_filter hx
  rcases List.mem_map.mp hx' with ⟨line, hline, rfl⟩
  intro c hc
  have hc' : c ∈ (pyStrip line).data.map pyLower := hc
  rcases List.mem_map.mp hc' with ⟨d, hd, rfl⟩
  exact pyLower_clean d (h line hline d (mem_pyStripL _ d hd))

lemma cardPair_word (w t a : String) (ts : Nat) :
    createAnkiCardPair w t a "word" ts
      = (w ++ " [sound:" ++ (if a = "" then w ++ "_" ++ natRepr ts ++ ".mp3" else a) ++ "]",
         if t ≠ "" then t else "Translation for: " ++ w) := rfl

lemma cardPair_phrase (w t a : String) (ts : Nat) :
    createAnkiCardPair w t a "phrase" ts
      = ("<strong>" ++ w ++ "</strong> [sound:"
           ++ (if a = "" then w ++ "_" ++ natRepr ts ++ ".mp3" else a) ++ "]",
         if t ≠ "" then "<div>" ++ t ++ "</div>" else "Practice phrase with: " ++ w) := rfl

lemma cardPair_question (w t a : String) (ts : Nat) :
    createAnkiCardPair w t a "question" ts
      = ("<strong>Was bedeutet \x27" ++ w ++ "\x27?</strong> [sound:"
           ++ (if a = "" then w ++ "_" ++ natRepr ts ++ ".mp3" else a) ++ "]",
         if t ≠ "" then t else "Meaning of: " ++ w) := rfl

lemma cardPair_default (w t a ct : String) (ts : Nat)
    (h1 : ct ≠ "word") (h2 : ct ≠ "phrase") (h3 : ct ≠ "question") :
    createAnkiCardPair w t a ct ts
      = (w ++ " [sound:" ++ (if a = "" then w ++ "_" ++ natRepr ts ++ ".mp3" else a) ++ "]",
         if t ≠ "" then t else "") := by
  rw [createAnkiCardPair, if_neg h1, if_neg h2, if_neg h3]

lemma if_empty_str {x y : String} : (if ("" : String) ≠ "" then x else y) = y :=
  if_neg (fun hne => hne rfl)

/-- Synthesized cards built from a tab/newline-free word and audio name
have tab/newline-free fronts and backs (for the empty translation used by
the deck generators). -/
lemma cardPair_clean (w audio ct : String) (ts : Nat)
    (hw : CleanStr w) (ha : CleanStr audio) :
    CleanStr (createAnkiCardPair w "" audio ct ts).1 ∧
    CleanStr (createAnkiCardPair w "" audio ct ts).2 := by
  have haud : CleanStr (if audio = "" then w ++ "_" ++ natRepr ts ++ ".mp3" else audio) := by
    split
    · exact cleanStr_append
        (cleanStr_append (cleanStr_append hw (by decide)) (cleanStr_natRepr ts)) (by decide)
    · exact ha
  by_cases h1 : ct = "word"
  · subst h1
    rw [cardPair_word]
    refine ⟨?_, ?_⟩
    · exact cleanStr_append (cleanStr_append (cleanStr_append hw (by decide)) haud) (by decide)
    · rw [if_empty_str]
      exact cleanStr_append (by decide) hw
  by_cases h2 : ct = "phrase"
  · subst h2
    rw [cardPair_phrase]
    refine ⟨?_, ?_⟩
    · exact cleanStr_append (cleanStr_append
        (cleanStr_append (cleanStr_append (by decide) hw) (by decide)) haud) (by decide)
    · rw [if_empty_str]
      exact cleanStr_append (by decide) hw
  by_cases h3 : ct = "question"
  · subst h3
    rw [cardPair_question]
    refine ⟨?_, ?_⟩
    · exact cleanStr_append (cleanStr_append
        (cleanStr_append (cleanStr_append (by decide) hw) (by decide)) haud) (by decide)
    · rw [if_empty_str]
      exact cleanStr_append (by decide) hw
  · rw [cardPair_default w "" audio ct ts h1 h2 h3]
    refine ⟨?_, ?_⟩
    · exact cleanStr_append (cleanStr_append (cleanStr_append hw (by decide)) haud) (by decide)
    · rw [if_empty_str]
      intro c hc
      cases hc

/-- All (front, back) pairs a tab/newline-free word contributes are
tab/newline-free. -/
lemma pairsForWord_clean (w ct : String) (ts : Nat) (ip : Bool) (hw : CleanStr w) :
    ∀ p ∈ pairsForWord w ts ct ip, CleanStr p.1 ∧ CleanStr p.2 := by
  have haud : CleanStr (w ++ "_" ++ natRepr ts ++ ".mp3") :=
    cleanStr_append
      (cleanStr_append (cleanStr_append hw (by decide)) (cleanStr_natRepr ts)) (by decide)
  cases ip with
  | false =>
    intro p hp
    rcases List.mem_singleton.mp hp with rfl
    exact cardPair_clean w _ ct ts hw haud
  | true =>
    intro p hp
    rw [pairsForWord_phrases] at hp
    have hda : CleanStr ("Das ist " ++ w ++ ".") :=
      cleanStr_append (cleanStr_append (by decide) hw) (by decide)
    have hic : CleanStr ("Ich habe " ++ w ++ ".") :=
      cleanStr_append (cleanStr_append (by decide) hw) (by decide)
    have hpa1 : CleanStr ("phrase_" ++ w ++ "_" ++ natRepr (ts + 1) ++ ".mp3") :=
      cleanStr_append (cleanStr_append
        (cleanStr_append (cleanStr_append (by decide) hw) (by decide))
        (cleanStr_natRepr (ts + 1))) (by decide)
    have hpa2 : CleanStr ("phrase_" ++ w ++ "_" ++ natRepr (ts + 2) ++ ".mp3") :=
      cleanStr_append (cleanStr_append
        (cleanStr_append (cleanStr_append (by decide) hw) (by decide))
        (cleanStr_natRepr (ts + 2))) (by decide)
    rcases List.mem_cons.mp hp with rfl | hp
    · exact cardPair_clean w _ ct ts hw haud
    rcases List.mem_cons.mp hp with rfl | hp
    · exact cardPair_clean _ _ "phrase" ts hda hpa1
    rcases List.mem_cons.mp hp with rfl | hp
    · exact cardPair_clean _ _ "phrase" ts hic hpa2
    cases hp

/-- All deck-body pairs built from tab/newline-free words are
tab/newline-free. -/
lemma deckPairs_clean (words : List String) (ts : Nat → Nat) (ct : String)
    (ip : Bool) (hws : ∀ w ∈ words, CleanStr w) :
    ∀ p ∈ deckPairsFromWords words ts ct ip, CleanStr p.1 ∧ CleanStr p.2 := by
  intro p hp
  rw [deckPairsFromWords] at hp
  rcases List.mem_flatten.mp hp with ⟨l, hl, hpl⟩
  rcases List.mem_map.mp hl with ⟨iw, hiw, rfl⟩
  exact pairsForWord_clean iw.2 ct (ts iw.1) ip
    (hws iw.2 (List.snd_mem_of_mem_enum hiw)) p hpl

/-- **C7 (amended)**: the emitted deck file is the *newline-join* of the
two literal directive lines `#separator:tab` and `#html:true` followed by
one `front<TAB>back` line per record in exact record order, with no
trailing directive lines; lines are separated (not terminated) by
newlines, so the final line — the last record's, or `#html:true` for an
empty record list — is **not** newline-terminated (see the
counterexample).  Splitting the file at newlines recovers exactly the
directive lines followed by the record lines. -/
theorem claim_C7_amended_serializer (pairs : List (String × String))
    (h : ∀ p ∈ pairs, (∀ c ∈ p.1.data, c ≠ '\n') ∧ (∀ c ∈ p.2.data, c ≠ '\n')) :
    splitLines (serializeDeck ("#separator:tab" :: "#html:true" ::
        pairs.map (fun p => p.1 ++ "\t" ++ p.2)))
      = "#separator:tab" :: "#html:true" :: pairs.map (fun p => p.1 ++ "\t" ++ p.2) := by
  rw [serializeDeck]
  apply splitLines_pyJoin
  · simp
  · intro s hs
    rcases List.mem_cons.mp hs with rfl | hs
    · decide
    rcases List.mem_cons.mp hs with rfl | hs
    · decide
    rcases List.mem_map.mp hs with ⟨p, hp, rfl⟩
    intro c hc
    have hdata : (p.1 ++ "\t" ++ p.2).data = p.1.data ++ '\t' :: p.2.data := by
      rw [String.data_append, String.data_append, List.append_assoc]
      rfl
    rw [hdata] at hc
    rcases List.mem_append.mp hc with hc | hc
    · exact (h p hp).1 c hc
    · rcases List.mem_cons.mp hc with rfl | hc
      · decide
      · exact (h p hp).2 c hc

/-- Counterexample to C7 as stated: with one record, the emitted file ends
in the record line's last character (here the tab before an empty back),
not in a newline — the record line is not newline-terminated. -/
theorem claim_C7_counterexample :
    serializeDeck (deckCardsFromWords ["haus"] (fun _ => 0) "simple" false)
      = "#separator:tab\n#html:true\nhaus [sound:haus_0.mp3]\t" ∧
    ("#separator:tab\n#html:true\nhaus [sound:haus_0.mp3]\t" : String).data.getLast?
      = some '\t' :=
  ⟨rfl, by decide⟩

/-- Witness for C7 at a concrete one-record deck. -/
theorem claim_C7_witness :
    (∀ p ∈ [(("haus [sound:haus_0.mp3]" : String), ("" : String))],
      (∀ c ∈ p.1.data, c ≠ '\n') ∧ (∀ c ∈ p.2.data, c ≠ '\n')) ∧
    splitLines (serializeDeck ("#separator:tab" :: "#html:true" ::
        [(("haus [sound:haus_0.mp3]" : String), ("" : String))].map
          (fun p => p.1 ++ "\t" ++ p.2)))
      = "#separator:tab" :: "#html:true" ::
        [(("haus [sound:haus_0.mp3]" : String), ("" : String))].map
          (fun p => p.1 ++ "\t" ++ p.2) :=
  ⟨by decide, claim_C7_amended_serializer _ (by decide)⟩

/-- **C8**: round-trip.  For a word-list file whose lines (hence whose
loaded words) contain no literal tab — newline-freeness holds by
construction, a "line" cannot contain a newline — re-parsing the emitted
deck file by dropping the two header lines and splitting each remaining
line on its first tab reconstructs exactly the synthesized (front, back)
pairs in order. -/
theorem claim_C8_roundtrip (lines : List String) (ts : Nat → Nat)
    (cardType : String) (includePhrases : Bool)
    (h : ∀ l ∈ lines, CleanStr l) :
    parseDeck (generateAnkiDeckFromList lines ts cardType includePhrases)
      = deckPairsFromWords (loadCustomWordList lines) ts cardType includePhrases := by
  have hwords := loadCustomWordList_clean lines h
  have hpairs := deckPairs_clean (loadCustomWordList lines) ts cardType includePhrases hwords
  rw [generateAnkiDeckFromList, parseDeck, serializeDeck, deckCardsFromWords]
  have hlines : ∀ s ∈ "#separator:tab" :: "#html:true" ::
      (deckPairsFromWords (loadCustomWordList lines) ts cardType includePhrases).map
        (fun p => p.1 ++ "\t" ++ p.2), ∀ c ∈ s.data, c ≠ '\n' := by
    intro s hs
    rcases List.mem_cons.mp hs with rfl | hs
    · decide
    rcases List.mem_cons.mp hs with rfl | hs
    · decide
    rcases List.mem_map.mp hs with ⟨p, hp, rfl⟩
    intro c hc
    have hdata : (p.1 ++ "\t" ++ p.2).data = p.1.data ++ '\t' :: p.2.data := by
      rw [String.data_append, String.data_append, List.append_assoc]
      rfl
    rw [hdata] at hc
    rcases List.mem_append.mp hc with hc | hc
    · exact ((hpairs p hp).1 c hc).2
    · rcases List.mem_cons.mp hc with rfl | hc
      · decide
      · exact ((hpairs p hp).2 c hc).2
  rw [splitLines_pyJoin _ (by simp) hlines]
  have hdrop : ∀ (a b : String) (X : List String), List.drop 2 (a :: b :: X) = X :=
    fun _ _ _ => rfl
  rw [hdrop, List.map_map]
  conv_rhs => rw [← List.map_id
    (deckPairsFromWords (loadCustomWordList lines) ts cardType includePhrases)]
  apply List.map_congr_left
  intro p hp
  have hsplit := splitFirstTab_join p.1 p.2 (fun c hc => ((hpairs p hp).1 c hc).1)
  simpa [Function.comp] using hsplit

/-- Witness for C8 at a concrete one-word list. -/
theorem claim_C8_witness :
    (∀ l ∈ ["Haus"], CleanStr l) ∧
    parseDeck (generateAnkiDeckFromList ["Haus"] (fun _ => 0) "simple" false)
      = deckPairsFromWords (loadCustomWordList ["Haus"]) (fun _ => 0) "simple" false ∧
    parseDeck (generateAnkiDeckFromList ["Haus"] (fun _ => 0) "simple" false)
      = [("haus [sound:haus_0.mp3]", "")] :=
  ⟨by decide, claim_C8_roundtrip ["Haus"] _ _ _ (by decide), by decide⟩

end AnkiTTS
